import Mathlib

/-!
Verification of core algorithms of an FLV → fragmented-MP4 transmuxing
pipeline (flv.js).  The JavaScript sources are shallowly embedded:

* byte buffers (`Uint8Array` / `ArrayBuffer`) become `List Nat` of byte values;
* JS numbers holding integral millisecond timestamps become `Int`;
* JS floating-point intermediates (`refSampleDuration`, the running
  `currentDts` of the silent-frame generator) become `ℚ`, with
  `Math.floor` / `Math.ceil` / `Math.round` as `Int.floor` / `Int.ceil` /
  `⌊q + 1/2⌋`;
* `undefined` / `null` results become `Option`;
* JS truthiness tests on numeric fields (`if (this._audioNextDts)`) are
  modelled exactly: an `Option Int` is truthy iff it is `some v` with `v ≠ 0`.

Each section names the source file and function it embeds.
-/

namespace FlvJs

/-! ### Byte-level helpers (DataView / Uint8Array semantics) -/

/-- JS `x >>> k` followed by `& 0xFF`: `ToUint32` then shift then mask. -/
def u32Byte (n : Nat) (k : Nat) : Nat :=
  ((n % 2 ^ 32) >>> k) &&& 0xFF

/-- Read one byte (out-of-range reads give 0; all uses are in-range). -/
def readU8 (chunk : List Nat) (i : Nat) : Nat :=
  chunk.getD i 0

/-- `DataView.getUint32(i, false)` — big-endian 32-bit read. -/
def readU32BE (chunk : List Nat) (i : Nat) : Nat :=
  readU8 chunk i * 2 ^ 24 + readU8 chunk (i + 1) * 2 ^ 16 +
    readU8 chunk (i + 2) * 2 ^ 8 + readU8 chunk (i + 3)

/-- `Uint8Array.prototype.set(data, off)`: overwrite `data.length` bytes of
`arr` starting at `off`. -/
def writeAt (arr : List Nat) (off : Nat) (data : List Nat) : List Nat :=
  arr.take off ++ data ++ arr.drop (off + data.length)

/-! ### `MP4.box` (src/remux/mp4-generator.js, `static box(type)`)

`box` allocates a `Uint8Array` of length `8 + Σ bodyᵢ.byteLength`, writes the
four big-endian size bytes at 0‥3, writes the 4-byte FourCC at offset 4 and
then copies each body in argument order starting at offset 8. -/

/-- The body-copy loop of `MP4.box`. -/
def boxWriteBodies : List Nat → Nat → List (List Nat) → List Nat
  | acc, _, [] => acc
  | acc, off, d :: ds => boxWriteBodies (writeAt acc off d) (off + d.length) ds

/-- `MP4.box(type, ...datas)`. -/
def MP4box (type : List Nat) (datas : List (List Nat)) : List Nat :=
  let size := 8 + (datas.map List.length).sum
  let r0 := List.replicate size 0
  let r1 := writeAt r0 0 [u32Byte size 24, u32Byte size 16, u32Byte size 8, size &&& 0xFF]
  let r2 := writeAt r1 4 type
  boxWriteBodies r2 8 datas

/-- Big-endian byte string of a 32-bit size, as `MP4.box` writes it. -/
def beSizeBytes (size : Nat) : List Nat :=
  [u32Byte size 24, u32Byte size 16, u32Byte size 8, size &&& 0xFF]

/-! ### `IOController.pause` (src/io/loader.js) -/

/-- The fields of `IOController` that `pause()` reads or writes. -/
structure IOControllerState where
  loaderWorking : Bool
  paused : Bool
  stashUsed : Nat
  stashByteStart : Nat
  currentRangeTo : Int
  resumeFrom : Int
  deriving Repr, DecidableEq

/-- `IOController.isWorking()`: the loader is working and not paused. -/
def IOControllerState.isWorking (s : IOControllerState) : Bool :=
  s.loaderWorking && !s.paused

/-- `IOController.pause()`: abort the loader, record the resume offset
(`stashByteStart` if the stash is non-empty, else `currentRange.to + 1`),
clear the stash and set the paused flag. -/
def IOControllerState.pause (s : IOControllerState) : IOControllerState :=
  if s.isWorking then
    if s.stashUsed ≠ 0 then
      { s with loaderWorking := false,
               resumeFrom := (s.stashByteStart : Int),
               currentRangeTo := (s.stashByteStart : Int) - 1,
               stashUsed := 0, stashByteStart := 0, paused := true }
    else
      { s with loaderWorking := false,
               resumeFrom := s.currentRangeTo + 1,
               stashUsed := 0, stashByteStart := 0, paused := true }
  else s

/-! ### Media-segment sequence numbers (src/remux/mp4-remuxer.js)

`_remuxAudio` / `_remuxVideo` execute `track.sequenceNumber++` on the track
object they were handed and then build `moof` with
`MP4.mfhd(track.sequenceNumber)`.  On the normal path that track is the
demuxer's persistent track, whose `sequenceNumber` survives between batches;
`flushStashedSamples` instead builds a fresh track literal with
`sequenceNumber: 0` and passes it with `force = true`. -/

/-- A remux call that emits a media segment for one track. -/
inductive RemuxCall
  | normalRemux
  | flushStashed
  deriving Repr, DecidableEq

/-- Sequence numbers written into `mfhd` by successive emissions, starting
from demuxer-track counter `seq`.  `normalRemux` increments the persistent
counter and emits it; `flushStashed` uses a fresh track whose counter starts
at 0, so it emits `0 + 1` and leaves the persistent counter unchanged. -/
def runSeqNumbers : Nat → List RemuxCall → List Nat
  | _, [] => []
  | seq, RemuxCall.normalRemux :: rest => (seq + 1) :: runSeqNumbers (seq + 1) rest
  | seq, RemuxCall.flushStashed :: rest => (0 + 1) :: runSeqNumbers seq rest

/-! ### src/core/media-segment-info.js

`SampleInfo` keeps `dts`, `pts`, `duration`, `originalDts`, `isSyncPoint`;
only the fields read by the remuxer's DTS correction are carried here.
An `IDRSampleList` element is represented by its `dts` (the binary search in
`getLastSyncPointBeforeDts` reads nothing else and returns the element). -/

structure SampleInfoE where
  dts : Int
  duration : Int
  originalDts : Int
  deriving Repr, DecidableEq, Inhabited

structure MediaSegmentInfoE where
  originalBeginDts : Int
  lastSample : SampleInfoE
  syncPoints : List Int
  deriving Repr, DecidableEq, Inhabited

/-- The `while (lbound <= ubound)` binary-search loop of
`IDRSampleList.getLastSyncPointBeforeDts`.  `idx` is only assigned at the two
break sites, so falling out of the loop returns the initial `idx = 0`.
Out-of-range reads default to 0; the loop never performs one (`mid ≤ last`,
and `mid + 1` is only read under `mid ≠ last`). -/
def idrLoop (list : List Int) (dts : Int) (last lbound ubound : Int) : Int :=
  if h : lbound ≤ ubound then
    let mid := lbound + (ubound - lbound) / 2
    if mid = last ∨ (dts ≥ list.getD mid.toNat 0 ∧ dts < list.getD (mid + 1).toNat 0) then
      mid
    else if list.getD mid.toNat 0 < dts then
      idrLoop list dts last (mid + 1) ubound
    else
      idrLoop list dts last lbound (mid - 1)
  else 0
termination_by (ubound + 1 - lbound).toNat
decreasing_by
  · omega
  · omega

/-- `IDRSampleList.getLastSyncPointBeforeDts(dts)`. -/
def getLastSyncPointBeforeDts (list : List Int) (dts : Int) : Option Int :=
  if list.length = 0 then none
  else
    let last : Int := (list.length : Int) - 1
    let idx : Int := if dts < list.getD 0 0 then 0 else idrLoop list dts last 0 last
    some (list.getD idx.toNat 0)

/-- The predicate “element at index `k` has dts ≤ the query”, used to state
the greatest-matching-index characterisation of the binary search. -/
abbrev dtsLE (list : List Int) (dts : Int) : ℕ → Prop := fun k => list.getD k 0 ≤ dts

/-- The binary-search loop of `MediaSegmentInfoList._searchNearestSegmentBefore`. -/
def msilSearchLoop (list : List MediaSegmentInfoE) (odts : Int) (last lbound ubound : Int) :
    Int :=
  if h : lbound ≤ ubound then
    let mid := lbound + (ubound - lbound) / 2
    if mid = last ∨ ((list.getD mid.toNat default).lastSample.originalDts < odts ∧
        odts < (list.getD (mid + 1).toNat default).originalBeginDts) then
      mid
    else if (list.getD mid.toNat default).originalBeginDts < odts then
      msilSearchLoop list odts last (mid + 1) ubound
    else
      msilSearchLoop list odts last lbound (mid - 1)
  else 0
termination_by (ubound + 1 - lbound).toNat
decreasing_by
  · omega
  · omega

/-- `MediaSegmentInfoList._searchNearestSegmentBefore(originalBeginDts)`:
`-2` on an empty list, `-1` when the query precedes the first segment. -/
def searchNearestSegmentBefore (list : List MediaSegmentInfoE) (odts : Int) : Int :=
  if list.length = 0 then -2
  else if odts < (list.getD 0 default).originalBeginDts then -1
  else msilSearchLoop list odts ((list.length : Int) - 1) 0 ((list.length : Int) - 1)

/-- `MediaSegmentInfoList.getLastSegmentBefore`: `null` when the search index
is negative.  A JS read `this._list[idx]` at a negative index would give
`undefined`; the embedding returns `none`. -/
def getLastSegmentBefore (list : List MediaSegmentInfoE) (odts : Int) :
    Option MediaSegmentInfoE :=
  let idx := searchNearestSegmentBefore list odts
  if 0 ≤ idx then list.get? idx.toNat else none

/-- `MediaSegmentInfoList.getLastSampleBefore`. -/
def getLastSampleBefore (list : List MediaSegmentInfoE) (odts : Int) : Option SampleInfoE :=
  (getLastSegmentBefore list odts).map (·.lastSample)

/-- The `while (syncPoints.length === 0 && segmentIdx > 0)` walk of
`MediaSegmentInfoList.getLastSyncPointBefore`: scan from `segmentIdx`
downwards for the first segment with a non-empty `syncPoints`. -/
def syncWalk (list : List MediaSegmentInfoE) : Nat → List Int
  | 0 => (list.getD 0 default).syncPoints
  | n + 1 =>
    if (list.getD (n + 1) default).syncPoints.length = 0 then syncWalk list n
    else (list.getD (n + 1) default).syncPoints

/-- `MediaSegmentInfoList.getLastSyncPointBefore(originalBeginDts)`.
In JS a negative search index makes `this._list[segmentIdx].syncPoints`
throw (`undefined.syncPoints`); the embedding yields `none` there. -/
def getLastSyncPointBefore (list : List MediaSegmentInfoE) (odts : Int) : Option Int :=
  let segmentIdx := searchNearestSegmentBefore list odts
  if 0 ≤ segmentIdx then (syncWalk list segmentIdx.toNat).getLast?
  else none

/-! ### `FLVDemuxer.parseChunks` (src/demux/flv-demuxer.js)

Only the consumed-byte-count dynamics are embedded: the per-tag parsers
(`_parseAudioData` / `_parseVideoData` / `_parseScriptData`) do not touch
`offset`, and both the skip path for unknown tag types and the parse path
advance by `11 + dataSize + 4`. -/

/-- `dataSize`: `v.getUint32(0, !le) & 0x00FFFFFF` at tag start `off`. -/
def tagDataSize (chunk : List Nat) (off : Nat) : Nat :=
  readU32BE chunk off &&& 0xFFFFFF

/-- The `while (offset < chunk.byteLength)` tag loop of `parseChunks`. -/
def parseTagsLoop (chunk : List Nat) (offset : Nat) : Nat :=
  if offset < chunk.length then
    if offset + 11 + 4 > chunk.length then offset
    else
      let dataSize := tagDataSize chunk offset
      if offset + 11 + dataSize + 4 > chunk.length then offset
      else parseTagsLoop chunk (offset + 11 + dataSize + 4)
  else offset
termination_by chunk.length - offset
decreasing_by
  omega

/-- `FLVDemuxer.probe(buffer)`: `none` models `{match: false}` (signature or
header-size check failed), `some off` the returned `dataOffset`. -/
def flvProbe (chunk : List Nat) : Option Nat :=
  if readU8 chunk 0 = 0x46 ∧ readU8 chunk 1 = 0x4C ∧ readU8 chunk 2 = 0x56 ∧
      readU8 chunk 3 = 1 then
    let off := readU32BE chunk 5
    if off < 9 then none else some off
  else none

/-- `FLVDemuxer.parseChunks(chunk, byteStart)`: the returned consumed byte
count.  `none` models the paths where the JS code crashes or poisons `offset`
with `NaN` (probe mismatch at `byteStart = 0`, or a first-parse
`getUint32` past the end of the buffer). -/
def parseChunksConsumed (firstParse : Bool) (chunk : List Nat) (byteStart : Nat) :
    Option Nat :=
  if byteStart = 0 ∧ ¬ 13 < chunk.length then some 0
  else
    match (if byteStart = 0 then flvProbe chunk else some 0) with
    | none => none
    | some offset0 =>
      match (if firstParse then
              (if offset0 + 4 ≤ chunk.length then some (offset0 + 4) else none)
             else some offset0) with
      | none => none
      | some offset1 => some (parseTagsLoop chunk offset1)

/-! ### `MP4Remuxer._remuxAudio` / `_remuxVideo` (src/remux/mp4-remuxer.js)

JS numbers are modelled as exact rationals; integral timestamps stay `Int`.
`Math.round` is `⌊q + 1/2⌋`, `Math.ceil` is `⌈q⌉`, `Math.floor` is `⌊q⌋`. -/

def jsRound (q : ℚ) : Int := ⌊q + 1 / 2⌋

/-- JS truthiness of the numeric field `this._audioNextDts` /
`this._videoNextDts`: `undefined` and `0` are falsy, any other value truthy. -/
def jsTruthy (v : Option Int) : Bool :=
  match v with
  | some x => decide (x ≠ 0)
  | none => false

/-- The `calculate dtsCorrection` block shared verbatim by `_remuxAudio`
(lines 409–432) and `_remuxVideo` (lines 712–730): `nextDts` is the track's
`_audioNextDts` / `_videoNextDts`, `infoList` the track's segment-info list,
`fso` the `firstSampleOriginalDts` of the batch. -/
def computeDtsCorrection (nextDts : Option Int) (infoList : List MediaSegmentInfoE)
    (fso : Int) : Int :=
  if jsTruthy nextDts then fso - nextDts.getD 0
  else if infoList.length = 0 then 0
  else
    match getLastSampleBefore infoList fso with
    | some ls =>
      let distance := fso - (ls.originalDts + ls.duration)
      let distance2 := if distance ≤ 3 then 0 else distance
      fso - (ls.dts + ls.duration + distance2)
    | none => 0

/-- An input audio sample as queued by the demuxer (`pts == dts`); `size` is
`unit.byteLength`. -/
structure RawAudioSample where
  dts : Int
  size : Nat
  deriving Repr, DecidableEq

/-- An entry of `mp4Samples` produced by `_remuxAudio` (the per-sample flags
are constants and are omitted). -/
structure Mp4AudioSample where
  dts : Int
  pts : Int
  cts : Int
  size : Nat
  duration : Int
  originalDts : Int
  deriving Repr, DecidableEq

/-- Parameters of one `_remuxAudio` pass that are fixed across the sample
loop.  `stashedNextDts` is the raw `dts` of the batch's popped last sample
(`lastSample`), used to derive the final sample's duration.  `isMp3` is
`this._audioMeta.codec === 'mp3'`, `fillAudioTimestampGap` the config flag,
`safari` the `Browser.safari` probe. -/
structure AudioRemuxCfg where
  dtsBase : Int
  dtsCorrection : Int
  refSampleDuration : ℚ
  isMp3 : Bool
  fillAudioTimestampGap : Bool
  safari : Bool
  stashedNextDts : Option Int
  deriving Repr, DecidableEq

/-- The silent-frame gap condition of `_remuxAudio` line 485. -/
def audioGapCond (cfg : AudioRemuxCfg) (sampleDuration : Int) : Bool :=
  decide ((sampleDuration : ℚ) > cfg.refSampleDuration * 1.5) && !cfg.isMp3 &&
    cfg.fillAudioTimestampGap && !cfg.safari

/-- The silent frames generated for one oversized gap (lines 488–535):
`frameCount = ceil(|gap − ref| / ref)` frames at
`dts_j = round(dts + (j+1)·ref)` (the float accumulator `currentDts` starts
at `dts + ref` and advances by `ref`), each frame's duration back-patched to
the next frame's dts, and the last frame stretched to end at `dts + gap`.
The silent unit's byte length is irrelevant to timing and is taken from the
offending sample (the repeat-last-frame fallback). -/
def silentFramesFor (dts gap : Int) (ref : ℚ) (size : Nat) (originalDts : Int) :
    List Mp4AudioSample :=
  let delta : ℚ := |(gap : ℚ) - ref|
  let n : Nat := (⌈delta / ref⌉).toNat
  let ds : List Int :=
    (List.range n).map (fun (j : ℕ) => jsRound ((dts : ℚ) + ((j : ℚ) + 1) * ref))
  (List.range n).map (fun (j : ℕ) =>
    { dts := ds.getD j 0, pts := ds.getD j 0, cts := 0, size := size,
      duration := if j + 1 < n then ds.getD (j + 1) 0 - ds.getD j 0
                  else dts + gap - ds.getD j 0,
      originalDts := originalDts })

/-- The per-sample `sampleDuration` computation of `_remuxAudio`
(lines 465–479), for the sample at corrected dts `dts` with remaining input
`rest` and already-emitted output `acc`: the duration to the next sample,
else to the stashed sample, else the previous output sample's duration
(`mp4Samples[mp4Samples.length - 1].duration`), else
`Math.floor(refSampleDuration)`. -/
def audioRawDuration (cfg : AudioRemuxCfg) (dts : Int) (rest : List RawAudioSample)
    (acc : List Mp4AudioSample) : Int :=
  match rest with
  | s2 :: _ => (s2.dts - cfg.dtsBase - cfg.dtsCorrection) - dts
  | [] =>
    match cfg.stashedNextDts with
    | some sd => (sd - cfg.dtsBase - cfg.dtsCorrection) - dts
    | none =>
      match acc.getLast? with
      | some prev => prev.duration
      | none => ⌊cfg.refSampleDuration⌋

/-- The `mp4Samples` entries pushed for one input sample in the loop body of
`_remuxAudio` (lines 455–568): the sample itself — with duration
`Math.round(refSampleDuration)` when the oversized-gap branch fires —
followed by the generated silent frames, if any. -/
def audioBlock (cfg : AudioRemuxCfg) (s : RawAudioSample) (rest : List RawAudioSample)
    (acc : List Mp4AudioSample) : List Mp4AudioSample :=
  let originalDts := s.dts - cfg.dtsBase
  let dts := originalDts - cfg.dtsCorrection
  let sampleDuration := audioRawDuration cfg dts rest acc
  if audioGapCond cfg sampleDuration then
    { dts := dts, pts := dts, cts := 0, size := s.size,
      duration := jsRound cfg.refSampleDuration, originalDts := originalDts } ::
      silentFramesFor dts sampleDuration cfg.refSampleDuration s.size originalDts
  else
    [{ dts := dts, pts := dts, cts := 0, size := s.size,
       duration := sampleDuration, originalDts := originalDts }]

/-- The `for (let i = 0; i < samples.length; i++)` loop of `_remuxAudio`
(lines 455–568), written with an explicit accumulator for the growing
`mp4Samples` array. -/
def remuxAudioSamples (cfg : AudioRemuxCfg) :
    List RawAudioSample → List Mp4AudioSample → List Mp4AudioSample
  | [], acc => acc
  | s :: rest, acc => remuxAudioSamples cfg rest (acc ++ audioBlock cfg s rest acc)

/-- An input video sample as queued by the demuxer. -/
structure RawVideoSample where
  dts : Int
  cts : Int
  size : Nat
  isKeyframe : Bool
  deriving Repr, DecidableEq

/-- An entry of `mp4Samples` produced by `_remuxVideo`. -/
structure Mp4VideoSample where
  dts : Int
  pts : Int
  cts : Int
  size : Nat
  duration : Int
  originalDts : Int
  isKeyframe : Bool
  deriving Repr, DecidableEq

/-- The per-sample `sampleDuration` computation of `_remuxVideo`
(lines 749–763), identical in shape to the audio one. -/
def videoRawDuration (dtsBase dtsCorrection : Int) (refSampleDuration : ℚ)
    (stashedNextDts : Option Int) (dts : Int) (rest : List RawVideoSample)
    (acc : List Mp4VideoSample) : Int :=
  match rest with
  | s2 :: _ => (s2.dts - dtsBase - dtsCorrection) - dts
  | [] =>
    match stashedNextDts with
    | some sd => (sd - dtsBase - dtsCorrection) - dts
    | none =>
      match acc.getLast? with
      | some prev => prev.duration
      | none => ⌊refSampleDuration⌋

/-- The `mp4Samples` entry pushed for one input sample by `_remuxVideo`. -/
def videoBlock (dtsBase dtsCorrection : Int) (refSampleDuration : ℚ)
    (stashedNextDts : Option Int) (s : RawVideoSample) (rest : List RawVideoSample)
    (acc : List Mp4VideoSample) : List Mp4VideoSample :=
  let originalDts := s.dts - dtsBase
  let dts := originalDts - dtsCorrection
  [{ dts := dts, pts := dts + s.cts, cts := s.cts, size := s.size,
     duration := videoRawDuration dtsBase dtsCorrection refSampleDuration stashedNextDts
       dts rest acc,
     originalDts := originalDts, isKeyframe := s.isKeyframe }]

/-- The sample loop of `_remuxVideo` (lines 736–791): like the audio loop but
with `pts = dts + cts` and no silent-frame generation. -/
def remuxVideoSamples (dtsBase dtsCorrection : Int) (refSampleDuration : ℚ)
    (stashedNextDts : Option Int) :
    List RawVideoSample → List Mp4VideoSample → List Mp4VideoSample
  | [], acc => acc
  | s :: rest, acc =>
    remuxVideoSamples dtsBase dtsCorrection refSampleDuration stashedNextDts rest
      (acc ++ videoBlock dtsBase dtsCorrection refSampleDuration stashedNextDts s rest acc)

/-! ### MediaInfo emission (src/demux/flv-demuxer.js + MediaInfo.isComplete)

`_onMediaInfo(mi)` is invoked, with no emitted-before guard, whenever a
metadata-bearing tag finishes parsing while `mi.isComplete()`; the call sites
are `_parseScriptData` (line 614), the AAC `AudioSpecificConfig` branch of
`_parseAudioData` (line 822), the MP3 first-header branch (line 872) and the
first-SPS branch of `_parseAVCDecoderConfigurationRecord` (line 1363).
The session state below carries exactly the demuxer flags and the
`MediaInfo` fields that `isComplete()` inspects; a `Bool` per nullable
`MediaInfo` field records whether it has been assigned a non-null value
(no handler ever assigns `null`, so set-ness is monotone except for the
`hasAudio`/`hasVideo` values themselves, which handlers may rewrite). -/

structure DemuxSession where
  hasAudio : Bool
  hasVideo : Bool
  hasAudioFlagOverrided : Bool
  hasVideoFlagOverrided : Bool
  durationOverrided : Bool
  audioMetaExists : Bool
  videoMetaExists : Bool
  miHasAudio : Bool
  miHasVideo : Bool
  miMimeSet : Bool
  miDurationSet : Bool
  miMetadataSet : Bool
  miHasKFISet : Bool
  miAudioCodecSet : Bool
  miAudioSampleRateSet : Bool
  miAudioChannelCountSet : Bool
  miVideoCodecSet : Bool
  miWidthSet : Bool
  miHeightSet : Bool
  miFpsSet : Bool
  miProfileSet : Bool
  miLevelSet : Bool
  miRefFramesSet : Bool
  miChromaFormatSet : Bool
  miSarSet : Bool
  deriving Repr, DecidableEq

/-- `MediaInfo.isComplete()` over the set-flags. -/
def DemuxSession.isComplete (s : DemuxSession) : Bool :=
  (!s.miHasAudio || (s.miAudioCodecSet && s.miAudioSampleRateSet && s.miAudioChannelCountSet))
  && (!s.miHasVideo || (s.miVideoCodecSet && s.miWidthSet && s.miHeightSet && s.miFpsSet
        && s.miProfileSet && s.miLevelSet && s.miRefFramesSet && s.miChromaFormatSet
        && s.miSarSet))
  && s.miMimeSet && s.miDurationSet && s.miMetadataSet && s.miHasKFISet

/-- The `onMetaData` fields, reduced to what the handler tests: presence and
(for `hasAudio`/`hasVideo`) the boolean value, presence of numeric
`duration`/`width`/`height`, the computed `fps_num` for `framerate`, and
presence of a `keyframes` object. -/
structure OnMetaDataTag where
  hasAudioField : Option Bool
  hasVideoField : Option Bool
  hasDurationNumber : Bool
  hasWidth : Bool
  hasHeight : Bool
  framerateNum : Option Nat
  hasKeyframes : Bool
  deriving Repr, DecidableEq

/-- The metadata-bearing tags of a session (each assumed to pass its own
validity checks so that it reaches the `isComplete` test). -/
inductive DemuxEv
  | scriptTag (md : OnMetaDataTag)
  | aacConfigTag
  | avcConfigTag
  deriving Repr, DecidableEq

/-- The `if (mi.isComplete()) this._onMediaInfo(mi)` tail shared by all four
call sites: returns the state together with the number of emissions (0/1). -/
def emitIfComplete (s : DemuxSession) : DemuxSession × Nat :=
  (s, if s.isComplete then 1 else 0)

/-- The `onMetaData` branch of `_parseScriptData`: returns the new state and
the number of `_onMediaInfo` calls made (0 or 1). -/
def stepScript (s : DemuxSession) (md : OnMetaDataTag) : DemuxSession × Nat :=
  let s := match md.hasAudioField with
    | some b => if !s.hasAudioFlagOverrided then { s with hasAudio := b, miHasAudio := b }
                else s
    | none => s
  let s := match md.hasVideoField with
    | some b => if !s.hasVideoFlagOverrided then { s with hasVideo := b, miHasVideo := b }
                else s
    | none => s
  let s := if md.hasWidth then { s with miWidthSet := true } else s
  let s := if md.hasHeight then { s with miHeightSet := true } else s
  let s := if md.hasDurationNumber then
      (if !s.durationOverrided then { s with miDurationSet := true } else s)
    else { s with miDurationSet := true }
  let s := match md.framerateNum with
    | some n => if 0 < n then { s with miFpsSet := true } else s
    | none => s
  let s := { s with miHasKFISet := true, miMetadataSet := true }
  emitIfComplete s

/-- The `AudioSpecificConfig` (AAC sequence header) branch of
`_parseAudioData`. -/
def stepAacConfig (s : DemuxSession) : DemuxSession × Nat :=
  if s.hasAudioFlagOverrided && !s.hasAudio then (s, 0)
  else
    let s := if !s.audioMetaExists && !s.hasAudio && !s.hasAudioFlagOverrided then
        { s with hasAudio := true, miHasAudio := true }
      else s
    let s := { s with audioMetaExists := true, miAudioCodecSet := true,
                      miAudioSampleRateSet := true, miAudioChannelCountSet := true }
    let s := if s.miHasVideo then
        (if s.miVideoCodecSet then { s with miMimeSet := true } else s)
      else { s with miMimeSet := true }
    emitIfComplete s

/-- The first-SPS branch of `_parseAVCDecoderConfigurationRecord` (later SPS
iterations `continue` before the `MediaInfo` update). -/
def stepAvcConfig (s : DemuxSession) : DemuxSession × Nat :=
  if s.hasVideoFlagOverrided && !s.hasVideo then (s, 0)
  else
    let s := if !s.videoMetaExists && !s.hasVideo && !s.hasVideoFlagOverrided then
        { s with hasVideo := true, miHasVideo := true }
      else s
    let s := { s with videoMetaExists := true, miVideoCodecSet := true, miWidthSet := true,
                      miHeightSet := true, miFpsSet := true, miProfileSet := true,
                      miLevelSet := true, miRefFramesSet := true, miChromaFormatSet := true,
                      miSarSet := true }
    let s := if s.miHasAudio then
        (if s.miAudioCodecSet then { s with miMimeSet := true } else s)
      else { s with miMimeSet := true }
    emitIfComplete s

/-- One parsed metadata-bearing tag. -/
def stepEv (s : DemuxSession) : DemuxEv → DemuxSession × Nat
  | DemuxEv.scriptTag md => stepScript s md
  | DemuxEv.aacConfigTag => stepAacConfig s
  | DemuxEv.avcConfigTag => stepAvcConfig s

/-- Total number of `_onMediaInfo` emissions over a session trace. -/
def runEmitCount (s : DemuxSession) : List DemuxEv → Nat
  | [] => 0
  | e :: rest =>
    let r := stepEv s e
    r.2 + runEmitCount r.1 rest

/-- Initial session state for a probe that reported `hasAudio = a`,
`hasVideo = v` (the constructor copies both into the `MediaInfo`). -/
def startSession (a v : Bool) : DemuxSession where
  hasAudio := a
  hasVideo := v
  hasAudioFlagOverrided := false
  hasVideoFlagOverrided := false
  durationOverrided := false
  audioMetaExists := false
  videoMetaExists := false
  miHasAudio := a
  miHasVideo := v
  miMimeSet := false
  miDurationSet := false
  miMetadataSet := false
  miHasKFISet := false
  miAudioCodecSet := false
  miAudioSampleRateSet := false
  miAudioChannelCountSet := false
  miVideoCodecSet := false
  miWidthSet := false
  miHeightSet := false
  miFpsSet := false
  miProfileSet := false
  miLevelSet := false
  miRefFramesSet := false
  miChromaFormatSet := false
  miSarSet := false

end FlvJs

namespace FlvJs

/-! ## Theorems -/

/-! ### Helper lemmas for `MP4.box` -/

theorem writeAt_replicate_zero {n : Nat} (x : Nat) (data : List Nat) :
    writeAt (List.replicate n x) 0 data = data ++ List.replicate (n - data.length) x := by
  simp [writeAt, List.drop_replicate]

theorem writeAt_append_left (pre tail data : List Nat) :
    writeAt (pre ++ tail) pre.length data = pre ++ data ++ tail.drop data.length := by
  simp [writeAt, List.take_left, List.drop_append]

theorem boxWriteBodies_spec (ds : List (List Nat)) :
    ∀ (pre : List Nat) (k : Nat), (ds.map List.length).sum ≤ k →
    boxWriteBodies (pre ++ List.replicate k 0) pre.length ds =
      pre ++ ds.flatten ++ List.replicate (k - (ds.map List.length).sum) 0 := by
  induction ds with
  | nil => intro pre k _; simp [boxWriteBodies]
  | cons d ds ih =>
    intro pre k hk
    simp only [List.map_cons, List.sum_cons] at hk
    have h1 : writeAt (pre ++ List.replicate k 0) pre.length d =
        pre ++ d ++ List.replicate (k - d.length) 0 := by
      rw [writeAt_append_left, List.drop_replicate]
    have h2 := ih (pre ++ d) (k - d.length) (by omega)
    have hlen : pre.length + d.length = (pre ++ d).length := by simp
    simp only [boxWriteBodies]
    rw [h1, hlen, h2]
    have hcnt : k - d.length - (ds.map List.length).sum =
        k - ((d :: ds).map List.length).sum := by
      simp only [List.map_cons, List.sum_cons]; omega
    rw [hcnt]
    simp [List.append_assoc]

theorem readU32BE_beSizeBytes (size : Nat) (rest : List Nat) (h : size < 2 ^ 32) :
    readU32BE (beSizeBytes size ++ rest) 0 = size := by
  have hb : readU32BE (beSizeBytes size ++ rest) 0 =
      u32Byte size 24 * 2 ^ 24 + u32Byte size 16 * 2 ^ 16 + u32Byte size 8 * 2 ^ 8 +
        (size &&& 0xFF) := rfl
  have h255 : (0xFF : Nat) = 2 ^ 8 - 1 := rfl
  rw [hb]
  simp only [u32Byte, h255, Nat.and_pow_two_sub_one_eq_mod, Nat.shiftRight_eq_div_pow,
    Nat.mod_eq_of_lt h]
  omega

/-- Claim C3: for a 4-byte FourCC `type` and any list of body byte arrays,
`MP4.box(type, ...bodies)` returns the 4 big-endian size bytes of
`8 + Σ bodyᵢ.length`, then the FourCC, then the bodies concatenated in
argument order; when the total size fits in 32 bits the first four bytes
decode (big-endian) to exactly that total size. -/
theorem mp4_box_layout (type : List Nat) (datas : List (List Nat))
    (ht : type.length = 4) :
    MP4box type datas =
      beSizeBytes (8 + (datas.map List.length).sum) ++ type ++ datas.flatten
    ∧ (8 + (datas.map List.length).sum < 2 ^ 32 →
        readU32BE (MP4box type datas) 0 = 8 + (datas.map List.length).sum) := by
  set S := 8 + (datas.map List.length).sum with hS
  have hlen4 : (beSizeBytes S).length = 4 := rfl
  have h1 : writeAt (List.replicate S 0) 0 (beSizeBytes S) =
      beSizeBytes S ++ List.replicate (S - 4) 0 := by
    rw [writeAt_replicate_zero, hlen4]
  have h2 : writeAt (beSizeBytes S ++ List.replicate (S - 4) 0) 4 type =
      beSizeBytes S ++ type ++ List.replicate (S - 4 - 4) 0 := by
    have h := writeAt_append_left (beSizeBytes S) (List.replicate (S - 4) 0) type
    rw [hlen4, List.drop_replicate, ht] at h
    exact h
  have hpre8 : (beSizeBytes S ++ type).length = 8 := by
    simp [hlen4, ht]
  have h3 : boxWriteBodies (beSizeBytes S ++ type ++ List.replicate (S - 4 - 4) 0) 8 datas =
      beSizeBytes S ++ type ++ datas.flatten := by
    have h := boxWriteBodies_spec datas (beSizeBytes S ++ type) (S - 4 - 4) (by omega)
    rw [hpre8, show S - 4 - 4 - (datas.map List.length).sum = 0 from by omega] at h
    simpa using h
  have hmain : MP4box type datas = beSizeBytes S ++ type ++ datas.flatten := by
    show boxWriteBodies (writeAt (writeAt (List.replicate S 0) 0 (beSizeBytes S)) 4 type)
        8 datas = _
    rw [h1, h2, h3]
  refine ⟨hmain, fun hsz => ?_⟩
  rw [hmain, List.append_assoc, readU32BE_beSizeBytes _ _ hsz]

/-- Witness for `mp4_box_layout` at a concrete box: type `"ftyp"` with two
small bodies. -/
theorem mp4_box_layout_witness :
    MP4box [0x66, 0x74, 0x79, 0x70] [[1, 2, 3], [4, 5]] =
      beSizeBytes 13 ++ [0x66, 0x74, 0x79, 0x70] ++ [1, 2, 3, 4, 5]
    ∧ readU32BE (MP4box [0x66, 0x74, 0x79, 0x70] [[1, 2, 3], [4, 5]]) 0 = 13 := by
  have h := mp4_box_layout [0x66, 0x74, 0x79, 0x70] [[1, 2, 3], [4, 5]] (by decide)
  exact ⟨h.1, h.2 (by norm_num)⟩

/-! ### `IOController.pause` theorems -/

/-- Claim C6 counterexample: pausing while working with a non-empty stash
(`stashUsed = 5`, `stashByteStart = 100`) records `resumeFrom = 100`
(the stash start), not `stashByteStart + stashUsed = 105` as claimed. -/
theorem ioPause_resumeFrom_counterexample :
    (IOControllerState.pause ⟨true, false, 5, 100, 200, 0⟩).resumeFrom = 100 ∧
      ¬ ((100 : Int) = 100 + 5) := by decide

/-- Claim C6 (amended): `pause()` while working aborts the loader, clears the
stash (`stashUsed` and `stashByteStart` become 0), sets the paused flag, and
records the resume offset as `stashByteStart` — the absolute offset of the
first unconsumed stashed byte — when the stash is non-empty (also rewinding
`currentRange.to` to `stashByteStart - 1`), and as `currentRange.to + 1` when
the stash is empty. -/
theorem ioPause_effects (s : IOControllerState) (h : s.isWorking = true) :
    (s.pause).loaderWorking = false ∧ (s.pause).paused = true ∧
    (s.pause).stashUsed = 0 ∧ (s.pause).stashByteStart = 0 ∧
    (s.pause).resumeFrom =
      (if s.stashUsed ≠ 0 then (s.stashByteStart : Int) else s.currentRangeTo + 1) ∧
    (s.pause).currentRangeTo =
      (if s.stashUsed ≠ 0 then (s.stashByteStart : Int) - 1 else s.currentRangeTo) := by
  unfold IOControllerState.pause
  rw [h]
  by_cases hs : s.stashUsed ≠ 0 <;> simp [hs]

/-- Witness for `ioPause_effects` at a concrete working state. -/
theorem ioPause_effects_witness :
    (IOControllerState.pause ⟨true, false, 5, 100, 200, 0⟩).resumeFrom = 100 :=
  ((ioPause_effects ⟨true, false, 5, 100, 200, 0⟩ (by decide)).2.2.2.2).1.trans (by decide)

/-! ### Sequence-number theorems -/

/-- Claim C8 counterexample: two normal remux passes followed by
`flushStashedSamples` write mfhd sequence numbers `[1, 2, 1]`, which is not
strictly increasing. -/
theorem seqNumbers_counterexample :
    runSeqNumbers 0 [RemuxCall.normalRemux, RemuxCall.normalRemux, RemuxCall.flushStashed] =
        [1, 2, 1]
    ∧ ¬ List.Chain' (· < ·)
        (runSeqNumbers 0
          [RemuxCall.normalRemux, RemuxCall.normalRemux, RemuxCall.flushStashed]) := by
  refine ⟨rfl, fun h => ?_⟩
  rw [show runSeqNumbers 0
        [RemuxCall.normalRemux, RemuxCall.normalRemux, RemuxCall.flushStashed] =
      [1, 2, 1] from rfl, List.chain'_cons, List.chain'_cons] at h
  obtain ⟨-, h2, -⟩ := h
  omega

theorem runSeq_normal_aux (evs : List RemuxCall)
    (h : ∀ e ∈ evs, e = RemuxCall.normalRemux) :
    ∀ seq : Nat, List.Chain' (· < ·) (runSeqNumbers seq evs) ∧
      ∀ x ∈ runSeqNumbers seq evs, seq < x := by
  induction evs with
  | nil => intro seq; simp [runSeqNumbers]
  | cons e rest ih =>
    intro seq
    have he : e = RemuxCall.normalRemux := h e (by simp)
    subst he
    have hr := ih (fun e' he' => h e' (by simp [he'])) (seq + 1)
    have hrun : runSeqNumbers seq (RemuxCall.normalRemux :: rest) =
        (seq + 1) :: runSeqNumbers (seq + 1) rest := rfl
    constructor
    · rw [hrun, List.chain'_cons']
      exact ⟨fun y hy => hr.2 y (List.mem_of_mem_head? hy), hr.1⟩
    · intro x hx
      rw [hrun, List.mem_cons] at hx
      rcases hx with hx | hx
      · omega
      · have := hr.2 x hx; omega

/-- Claim C8 (amended): sequence numbers emitted by successive normal remux
passes on the demuxer's persistent track are strictly increasing, but a
segment produced by `flushStashedSamples` always carries sequence number 1
(its fresh track literal starts at `sequenceNumber: 0`), so the whole-session
sequence including flushed segments need not be strictly increasing. -/
theorem seqNumbers_behavior (seq : Nat) (evs : List RemuxCall)
    (h : ∀ e ∈ evs, e = RemuxCall.normalRemux) :
    List.Chain' (· < ·) (runSeqNumbers seq evs) ∧
    ∀ rest : List RemuxCall,
      (runSeqNumbers seq (RemuxCall.flushStashed :: rest)).head? = some 1 :=
  ⟨(runSeq_normal_aux evs h seq).1, fun _ => rfl⟩

/-- Witness for `seqNumbers_behavior` on a two-pass trace. -/
theorem seqNumbers_behavior_witness :
    List.Chain' (· < ·) (runSeqNumbers 0 [RemuxCall.normalRemux, RemuxCall.normalRemux]) :=
  (seqNumbers_behavior 0 [RemuxCall.normalRemux, RemuxCall.normalRemux] (by decide)).1

/-! ### `parseChunks` theorems -/

/-- Claim C4: a tag at offset `o` whose declared extent
`o + 11 + dataSize + 4` exceeds the chunk length is not consumed — the tag
loop entered at `o` returns exactly `o`, so the controller retains all of
the tag's bytes; and `parseChunks` on a single-byte chunk (either at stream
start, or past the first-parse state) consumes 0 bytes. -/
theorem parseChunks_retains_incomplete_tag (chunk : List Nat) (o : Nat)
    (firstParse : Bool) (byteStart : Nat)
    (hext : o + 11 + tagDataSize chunk o + 4 > chunk.length) :
    parseTagsLoop chunk o = o ∧
    (chunk.length = 1 → (byteStart = 0 ∨ firstParse = false) →
      parseChunksConsumed firstParse chunk byteStart = some 0) := by
  constructor
  · rw [parseTagsLoop]
    by_cases h1 : o < chunk.length
    · simp only [h1, if_true]
      by_cases h2 : o + 11 + 4 > chunk.length
      · simp [h2]
      · simp only [h2, if_false]
        simp [hext]
    · simp [h1]
  · intro hlen hbs
    by_cases hbs0 : byteStart = 0
    · subst hbs0
      simp [parseChunksConsumed, hlen]
    · have hfp : firstParse = false := by tauto
      subst hfp
      have hloop : parseTagsLoop chunk 0 = 0 := by
        rw [parseTagsLoop]
        simp [hlen]
      simp [parseChunksConsumed, hbs0, hlen, hloop]

/-- Witness for `parseChunks_retains_incomplete_tag`: a single-byte chunk. -/
theorem parseChunks_retains_incomplete_tag_witness :
    parseTagsLoop [0] 0 = 0 ∧ parseChunksConsumed false [0] 5 = some 0 := by
  have h := parseChunks_retains_incomplete_tag [0] 0 false 5 (by decide)
  exact ⟨h.1, h.2 (by decide) (Or.inr rfl)⟩

/-! ### `MediaSegmentInfoList.getLastSyncPointBefore` partiality -/

/-- Claim C10: on an empty list the internal search returns `-2`, and on a
query preceding the first segment it returns `-1`; in both cases the
element access has no value and `getLastSyncPointBefore` produces no result,
so a result is only produced when the list is non-empty and the query is not
before the first segment. -/
theorem msil_getLastSyncPointBefore_partiality (list : List MediaSegmentInfoE)
    (odts : Int) :
    (list = [] → searchNearestSegmentBefore list odts = -2 ∧
      getLastSyncPointBefore list odts = none) ∧
    (list ≠ [] → odts < (list.getD 0 default).originalBeginDts →
      searchNearestSegmentBefore list odts = -1 ∧
      getLastSyncPointBefore list odts = none) ∧
    ((getLastSyncPointBefore list odts).isSome →
      list ≠ [] ∧ ¬ odts < (list.getD 0 default).originalBeginDts) := by
  have hempty : list = [] → searchNearestSegmentBefore list odts = -2 ∧
      getLastSyncPointBefore list odts = none := by
    intro h; subst h
    exact ⟨by simp [searchNearestSegmentBefore],
      by simp [getLastSyncPointBefore, searchNearestSegmentBefore]⟩
  have hbefore : list ≠ [] → odts < (list.getD 0 default).originalBeginDts →
      searchNearestSegmentBefore list odts = -1 ∧
      getLastSyncPointBefore list odts = none := by
    intro hne hlt
    have hlen : ¬ list.length = 0 := by simpa using hne
    have hs : searchNearestSegmentBefore list odts = -1 := by
      unfold searchNearestSegmentBefore
      rw [if_neg hlen, if_pos hlt]
    refine ⟨hs, ?_⟩
    simp [getLastSyncPointBefore, hs]
  refine ⟨hempty, hbefore, fun hsome => ?_⟩
  by_cases hne : list = []
  · rw [(hempty hne).2] at hsome; simp at hsome
  · refine ⟨hne, fun hlt => ?_⟩
    rw [(hbefore hne hlt).2] at hsome; simp at hsome

/-- Witness for `msil_getLastSyncPointBefore_partiality` on the empty list. -/
theorem msil_getLastSyncPointBefore_partiality_witness :
    searchNearestSegmentBefore [] 0 = -2 ∧ getLastSyncPointBefore [] 0 = none :=
  (msil_getLastSyncPointBefore_partiality [] 0).1 rfl

/-! ### DTS-correction theorems -/

theorem remuxAudioSamples_extends (cfg : AudioRemuxCfg) (samples : List RawAudioSample) :
    ∀ acc : List Mp4AudioSample, ∃ t, remuxAudioSamples cfg samples acc = acc ++ t := by
  induction samples with
  | nil => intro acc; exact ⟨[], by simp [remuxAudioSamples]⟩
  | cons s rest ih =>
    intro acc
    rw [remuxAudioSamples]
    obtain ⟨t, ht⟩ := ih (acc ++ audioBlock cfg s rest acc)
    rw [ht]
    exact ⟨_, by rw [List.append_assoc]⟩

theorem remuxVideoSamples_extends (dtsBase dtsCorrection : Int) (ref : ℚ)
    (stash : Option Int) (samples : List RawVideoSample) :
    ∀ acc : List Mp4VideoSample,
      ∃ t, remuxVideoSamples dtsBase dtsCorrection ref stash samples acc = acc ++ t := by
  induction samples with
  | nil => intro acc; exact ⟨[], by simp [remuxVideoSamples]⟩
  | cons s rest ih =>
    intro acc
    rw [remuxVideoSamples]
    obtain ⟨t, ht⟩ := ih _
    rw [ht]
    exact ⟨_, by rw [List.append_assoc]⟩

theorem audioBlock_cons (cfg : AudioRemuxCfg) (s : RawAudioSample)
    (rest : List RawAudioSample) (acc : List Mp4AudioSample) :
    ∃ (d : Int) (fr : List Mp4AudioSample),
      audioBlock cfg s rest acc =
        { dts := s.dts - cfg.dtsBase - cfg.dtsCorrection,
          pts := s.dts - cfg.dtsBase - cfg.dtsCorrection, cts := 0, size := s.size,
          duration := d, originalDts := s.dts - cfg.dtsBase } :: fr := by
  simp only [audioBlock]
  split
  · exact ⟨_, _, rfl⟩
  · exact ⟨_, [], rfl⟩

theorem remuxAudioSamples_head (cfg : AudioRemuxCfg) (s : RawAudioSample)
    (rest : List RawAudioSample) :
    ∃ (m : Mp4AudioSample) (t : List Mp4AudioSample),
      remuxAudioSamples cfg (s :: rest) [] = m :: t ∧
      m.dts = s.dts - cfg.dtsBase - cfg.dtsCorrection := by
  rw [remuxAudioSamples]
  obtain ⟨d, fr, hblock⟩ := audioBlock_cons cfg s rest []
  obtain ⟨t, ht⟩ := remuxAudioSamples_extends cfg rest ([] ++ audioBlock cfg s rest [])
  rw [ht, hblock]
  simp only [List.nil_append, List.cons_append]
  exact ⟨_, _, rfl, rfl⟩

theorem remuxVideoSamples_head (dtsBase dtsCorrection : Int) (ref : ℚ)
    (stash : Option Int) (s : RawVideoSample) (rest : List RawVideoSample) :
    ∃ (m : Mp4VideoSample) (t : List Mp4VideoSample),
      remuxVideoSamples dtsBase dtsCorrection ref stash (s :: rest) [] = m :: t ∧
      m.dts = s.dts - dtsBase - dtsCorrection := by
  rw [remuxVideoSamples]
  obtain ⟨t, ht⟩ := remuxVideoSamples_extends dtsBase dtsCorrection ref stash rest
    ([] ++ videoBlock dtsBase dtsCorrection ref stash s rest [])
  rw [ht]
  simp only [videoBlock, List.nil_append, List.cons_append]
  exact ⟨_, _, rfl, rfl⟩

/-- Claim C1 counterexample: `nextDts = 0` is falsy in JS, so with a defined
`nextDts = 0` (live stream, empty segment-info list) and
`firstSampleOriginalDts = 5000` the computed correction is 0, not
`5000 - 0 = 5000`, and the first emitted dts is 5000, not `nextDts = 0`. -/
theorem dtsCorrection_nextDtsZero_counterexample :
    computeDtsCorrection (some 0) [] 5000 = 0 ∧ ¬ ((5000 : Int) - 0 = 0) := by
  constructor
  · rfl
  · decide

/-- Claim C1 (amended): whenever the per-track `nextDts` is defined and
non-zero (JS-truthy — `nextDts = 0` instead falls through to the
segment-info-list path), both `_remuxAudio` and `_remuxVideo` compute
`dtsCorrection = firstSampleOriginalDts - nextDts`, and the first sample
emitted in the new segment has `dts = nextDts`. -/
theorem dtsCorrection_nextDts_defined (v fso : Int) (hv : v ≠ 0)
    (infoList : List MediaSegmentInfoE) :
    computeDtsCorrection (some v) infoList fso = fso - v ∧
    (∀ (cfg : AudioRemuxCfg) (s : RawAudioSample) (rest : List RawAudioSample),
      s.dts - cfg.dtsBase = fso →
      cfg.dtsCorrection = computeDtsCorrection (some v) infoList fso →
      ∃ (m : Mp4AudioSample) (t : List Mp4AudioSample),
        remuxAudioSamples cfg (s :: rest) [] = m :: t ∧ m.dts = v) ∧
    (∀ (dtsBase : Int) (ref : ℚ) (stash : Option Int) (s : RawVideoSample)
        (rest : List RawVideoSample),
      s.dts - dtsBase = fso →
      ∃ (m : Mp4VideoSample) (t : List Mp4VideoSample),
        remuxVideoSamples dtsBase (computeDtsCorrection (some v) infoList fso) ref stash
          (s :: rest) [] = m :: t ∧ m.dts = v) := by
  have hcorr : computeDtsCorrection (some v) infoList fso = fso - v := by
    simp [computeDtsCorrection, jsTruthy, hv]
  refine ⟨hcorr, ?_, ?_⟩
  · intro cfg s rest hfso hc
    obtain ⟨m, t, hmt, hdts⟩ := remuxAudioSamples_head cfg s rest
    refine ⟨m, t, hmt, ?_⟩
    rw [hdts, hc, hcorr]
    omega
  · intro dtsBase ref stash s rest hfso
    obtain ⟨m, t, hmt, hdts⟩ := remuxVideoSamples_head dtsBase
      (computeDtsCorrection (some v) infoList fso) ref stash s rest
    refine ⟨m, t, hmt, ?_⟩
    rw [hdts, hcorr]
    omega

/-- Witness for `dtsCorrection_nextDts_defined`: `nextDts = 1000`,
`firstSampleOriginalDts = 5000` gives correction 4000 and first emitted
dts 1000 (the spec's own example). -/
theorem dtsCorrection_nextDts_defined_witness :
    computeDtsCorrection (some 1000) [] 5000 = 4000 := by
  have h := (dtsCorrection_nextDts_defined 1000 5000 (by decide) []).1
  rw [h]
  decide

/-! ### Silent-frame lemmas -/

theorem jsRound_int_add (d : Int) (q : ℚ) : jsRound ((d : ℚ) + q) = d + jsRound q := by
  unfold jsRound
  rw [add_assoc, Int.floor_int_add]

theorem silentFrames_count (dts gap : Int) (ref : ℚ) (size : Nat) (odts : Int) :
    (silentFramesFor dts gap ref size odts).length =
      (⌈|(gap : ℚ) - ref| / ref⌉).toNat := by
  simp [silentFramesFor]

theorem silentFrames_count_pos (gap : Int) (ref : ℚ) (href : 0 < ref)
    (hgap : (gap : ℚ) > ref * 1.5) :
    1 ≤ (⌈|(gap : ℚ) - ref| / ref⌉).toNat := by
  have h0 : (0 : ℚ) < (gap : ℚ) - ref := by nlinarith
  have h1 : (0 : ℚ) < |(gap : ℚ) - ref| := by rw [abs_of_pos h0]; exact h0
  have h3 : (0 : ℤ) < ⌈|(gap : ℚ) - ref| / ref⌉ := Int.ceil_pos.mpr (div_pos h1 href)
  omega

theorem mapRange_getD (f : ℕ → ℤ) (n j : ℕ) (h : j < n) :
    ((List.range n).map f).getD j 0 = f j := by
  simp [List.getD_eq_getElem?_getD, List.getElem?_map, List.getElem?_range h]

theorem silentFrames_get (dts gap : Int) (ref : ℚ) (size : Nat) (odts : Int)
    (j : Nat) (hj : j < (silentFramesFor dts gap ref size odts).length) :
    (silentFramesFor dts gap ref size odts).get ⟨j, hj⟩ =
      { dts := jsRound ((dts : ℚ) + ((j : ℚ) + 1) * ref),
        pts := jsRound ((dts : ℚ) + ((j : ℚ) + 1) * ref), cts := 0, size := size,
        duration :=
          if j + 1 < (⌈|(gap : ℚ) - ref| / ref⌉).toNat then
            jsRound ((dts : ℚ) + (((j + 1 : ℕ) : ℚ) + 1) * ref) -
              jsRound ((dts : ℚ) + ((j : ℚ) + 1) * ref)
          else dts + gap - jsRound ((dts : ℚ) + ((j : ℚ) + 1) * ref),
        originalDts := odts } := by
  have hn : j < (⌈|(gap : ℚ) - ref| / ref⌉).toNat := by
    rw [silentFrames_count] at hj; exact hj
  rw [List.get_eq_getElem]
  simp only [silentFramesFor, List.getElem_map, List.getElem_range]
  rw [mapRange_getD (fun j => jsRound ((dts : ℚ) + ((j : ℚ) + 1) * ref)) _ j hn]
  by_cases h2 : j + 1 < (⌈|(gap : ℚ) - ref| / ref⌉).toNat
  · rw [mapRange_getD (fun j => jsRound ((dts : ℚ) + ((j : ℚ) + 1) * ref)) _ (j + 1) h2]
  · simp only [if_neg h2]

theorem silentFrames_chain (dts gap : Int) (ref : ℚ) (size : Nat) (odts : Int) :
    List.Chain' (fun a b => a.dts + a.duration = b.dts)
      (silentFramesFor dts gap ref size odts) := by
  rw [List.chain'_iff_get]
  intro i hi
  have hlen := silentFrames_count dts gap ref size odts
  have hi1 : i < (silentFramesFor dts gap ref size odts).length := by omega
  have hi2 : i + 1 < (silentFramesFor dts gap ref size odts).length := by omega
  rw [silentFrames_get dts gap ref size odts i hi1,
    silentFrames_get dts gap ref size odts (i + 1) hi2]
  have hcond : i + 1 < (⌈|(gap : ℚ) - ref| / ref⌉).toNat := by omega
  simp only [hcond, if_pos]
  have hBC : ((dts : ℚ) + (((i + 1 : ℕ) : ℚ) + 1) * ref) =
      ((dts : ℚ) + (((i : ℚ) + 1) + 1) * ref) := by push_cast; ring
  omega

theorem silentFrames_head (dts gap : Int) (ref : ℚ) (size : Nat) (odts : Int)
    (hn : 1 ≤ (⌈|(gap : ℚ) - ref| / ref⌉).toNat) :
    ∀ y ∈ (silentFramesFor dts gap ref size odts).head?, y.dts = dts + jsRound ref := by
  intro y hy
  have h0 : 0 < (silentFramesFor dts gap ref size odts).length := by
    rw [silentFrames_count]; omega
  rw [List.head?_eq_getElem?, List.getElem?_eq_getElem h0, Option.mem_some_iff] at hy
  have hg : (silentFramesFor dts gap ref size odts).get ⟨0, h0⟩ =
      (silentFramesFor dts gap ref size odts)[0] := rfl
  rw [← hy, ← hg, silentFrames_get dts gap ref size odts 0 h0]
  have : ((dts : ℚ) + ((0 : ℚ) + 1) * ref) = (dts : ℚ) + ref := by ring
  simp only [Nat.cast_zero, this]
  rw [jsRound_int_add]

theorem silentFrames_last (dts gap : Int) (ref : ℚ) (size : Nat) (odts : Int)
    (hn : 1 ≤ (⌈|(gap : ℚ) - ref| / ref⌉).toNat) :
    ∀ a ∈ (silentFramesFor dts gap ref size odts).getLast?,
      a.dts + a.duration = dts + gap := by
  intro a ha
  have hlen := silentFrames_count dts gap ref size odts
  have h0 : (silentFramesFor dts gap ref size odts).length - 1 <
      (silentFramesFor dts gap ref size odts).length := by omega
  rw [List.getLast?_eq_getElem?, List.getElem?_eq_getElem h0, Option.mem_some_iff] at ha
  have hg : (silentFramesFor dts gap ref size odts).get
      ⟨(silentFramesFor dts gap ref size odts).length - 1, h0⟩ =
      (silentFramesFor dts gap ref size odts)[
        (silentFramesFor dts gap ref size odts).length - 1] := rfl
  rw [← ha, ← hg, silentFrames_get dts gap ref size odts _ h0]
  have hcond : ¬ ((silentFramesFor dts gap ref size odts).length - 1 + 1 <
      (⌈|(gap : ℚ) - ref| / ref⌉).toNat) := by omega
  simp only [hcond, if_neg, not_false_iff]
  omega

/-! ### Sample-contiguity lemmas -/

theorem audioGapCond_gap {cfg : AudioRemuxCfg} {d : Int}
    (h : audioGapCond cfg d = true) : (d : ℚ) > cfg.refSampleDuration * 1.5 := by
  simp only [audioGapCond, Bool.and_eq_true, decide_eq_true_eq] at h
  exact h.1.1.1

theorem audioBlock_ne_nil (cfg : AudioRemuxCfg) (s : RawAudioSample)
    (rest : List RawAudioSample) (acc : List Mp4AudioSample) :
    audioBlock cfg s rest acc ≠ [] := by
  obtain ⟨d, fr, h⟩ := audioBlock_cons cfg s rest acc
  rw [h]
  exact List.cons_ne_nil _ _

theorem audioBlock_head_dts (cfg : AudioRemuxCfg) (s : RawAudioSample)
    (rest : List RawAudioSample) (acc : List Mp4AudioSample) :
    ∀ y ∈ (audioBlock cfg s rest acc).head?,
      y.dts = s.dts - cfg.dtsBase - cfg.dtsCorrection := by
  obtain ⟨d, fr, h⟩ := audioBlock_cons cfg s rest acc
  rw [h]
  intro y hy
  rw [List.head?_cons, Option.mem_some_iff] at hy
  rw [← hy]

theorem audioBlock_chain (cfg : AudioRemuxCfg) (href : 0 < cfg.refSampleDuration)
    (s : RawAudioSample) (rest : List RawAudioSample) (acc : List Mp4AudioSample) :
    List.Chain' (fun a b => a.dts + a.duration = b.dts) (audioBlock cfg s rest acc) := by
  simp only [audioBlock]
  split
  · rename_i hg
    rw [List.chain'_cons']
    constructor
    · intro y hy
      have hgap := audioGapCond_gap hg
      have hn := silentFrames_count_pos _ _ href hgap
      have := silentFrames_head _ _ _ _ _ hn y hy
      rw [this]
    · exact silentFrames_chain _ _ _ _ _
  · exact List.chain'_singleton _

theorem audioBlock_last_end (cfg : AudioRemuxCfg) (href : 0 < cfg.refSampleDuration)
    (s : RawAudioSample) (rest : List RawAudioSample) (acc : List Mp4AudioSample) :
    ∀ a ∈ (audioBlock cfg s rest acc).getLast?,
      a.dts + a.duration = (s.dts - cfg.dtsBase - cfg.dtsCorrection) +
        audioRawDuration cfg (s.dts - cfg.dtsBase - cfg.dtsCorrection) rest acc := by
  simp only [audioBlock]
  split
  · rename_i hg
    have hgap := audioGapCond_gap hg
    have hn := silentFrames_count_pos _ _ href hgap
    have hne : silentFramesFor (s.dts - cfg.dtsBase - cfg.dtsCorrection)
        (audioRawDuration cfg (s.dts - cfg.dtsBase - cfg.dtsCorrection) rest acc)
        cfg.refSampleDuration s.size (s.dts - cfg.dtsBase) ≠ [] := by
      intro hnil
      have := silentFrames_count (s.dts - cfg.dtsBase - cfg.dtsCorrection)
        (audioRawDuration cfg (s.dts - cfg.dtsBase - cfg.dtsCorrection) rest acc)
        cfg.refSampleDuration s.size (s.dts - cfg.dtsBase)
      rw [hnil] at this
      simp at this
      omega
    intro a ha
    rw [show ∀ (m : Mp4AudioSample) (l : List Mp4AudioSample), (m :: l) = [m] ++ l from
      fun _ _ => rfl, List.getLast?_append_of_ne_nil _ hne] at ha
    exact silentFrames_last _ _ _ _ _ hn a ha
  · intro a ha
    rw [List.getLast?_singleton, Option.mem_some_iff] at ha
    rw [← ha]

theorem remuxAudio_chain_aux (cfg : AudioRemuxCfg) (href : 0 < cfg.refSampleDuration) :
    ∀ (samples : List RawAudioSample) (acc : List Mp4AudioSample),
      List.Chain' (fun a b => a.dts + a.duration = b.dts) acc →
      (∀ a ∈ acc.getLast?, ∀ s ∈ samples.head?,
        a.dts + a.duration = s.dts - cfg.dtsBase - cfg.dtsCorrection) →
      List.Chain' (fun a b => a.dts + a.duration = b.dts)
        (remuxAudioSamples cfg samples acc) := by
  intro samples
  induction samples with
  | nil =>
    intro acc hc _
    simpa [remuxAudioSamples] using hc
  | cons s rest ih =>
    intro acc hc hlink
    rw [remuxAudioSamples]
    apply ih
    · rw [List.chain'_append]
      refine ⟨hc, audioBlock_chain cfg href s rest acc, ?_⟩
      intro x hx y hy
      have hyd := audioBlock_head_dts cfg s rest acc y hy
      rw [hyd]
      exact hlink x hx s (by simp)
    · intro a ha s2 hs2
      cases rest with
      | nil => simp at hs2
      | cons s2x tail =>
        rw [List.head?_cons, Option.mem_some_iff] at hs2
        rw [List.getLast?_append_of_ne_nil _ (audioBlock_ne_nil cfg s (s2x :: tail) acc)]
          at ha
        have hend := audioBlock_last_end cfg href s (s2x :: tail) acc a ha
        rw [hend, ← hs2]
        simp only [audioRawDuration]
        ring

theorem remuxVideo_chain_aux (dtsBase dtsCorrection : Int) (ref : ℚ)
    (stash : Option Int) :
    ∀ (samples : List RawVideoSample) (acc : List Mp4VideoSample),
      List.Chain' (fun a b => a.dts + a.duration = b.dts) acc →
      (∀ a ∈ acc.getLast?, ∀ s ∈ samples.head?,
        a.dts + a.duration = s.dts - dtsBase - dtsCorrection) →
      List.Chain' (fun a b => a.dts + a.duration = b.dts)
        (remuxVideoSamples dtsBase dtsCorrection ref stash samples acc) := by
  intro samples
  induction samples with
  | nil =>
    intro acc hc _
    simpa [remuxVideoSamples] using hc
  | cons s rest ih =>
    intro acc hc hlink
    rw [remuxVideoSamples]
    apply ih
    · rw [List.chain'_append]
      refine ⟨hc, List.chain'_singleton _, ?_⟩
      intro x hx y hy
      simp only [videoBlock, List.head?_cons, Option.mem_some_iff] at hy
      rw [← hy]
      exact hlink x hx s (by simp)
    · intro a ha s2 hs2
      cases rest with
      | nil => simp at hs2
      | cons s2x tail =>
        rw [List.head?_cons, Option.mem_some_iff] at hs2
        rw [List.getLast?_append_of_ne_nil _ (by simp [videoBlock])] at ha
        simp only [videoBlock, List.getLast?_singleton, Option.mem_some_iff] at ha
        rw [← ha, ← hs2]
        simp only [videoRawDuration]
        ring

/-- Claim C2: within any one emitted media segment, adjacent entries of
`mp4Samples` satisfy `mp4Samples[i].dts + mp4Samples[i].duration =
mp4Samples[i+1].dts` — for video always, and for audio including across
inserted silent frames (each silent frame's duration is back-patched to the
following frame's dts and the last one is stretched to the next real
sample's dts, so the contiguity in fact holds without exception). -/
theorem mp4Samples_contiguous (cfg : AudioRemuxCfg) (samples : List RawAudioSample)
    (dtsBase dtsCorrection : Int) (ref : ℚ) (stash : Option Int)
    (vsamples : List RawVideoSample) (href : 0 < cfg.refSampleDuration) :
    List.Chain' (fun a b => a.dts + a.duration = b.dts)
      (remuxAudioSamples cfg samples []) ∧
    List.Chain' (fun a b => a.dts + a.duration = b.dts)
      (remuxVideoSamples dtsBase dtsCorrection ref stash vsamples []) :=
  ⟨remuxAudio_chain_aux cfg href samples [] List.chain'_nil (by simp),
   remuxVideo_chain_aux dtsBase dtsCorrection ref stash vsamples [] List.chain'_nil
     (by simp)⟩

/-- Witness for `mp4Samples_contiguous`: an AAC batch with a 100 ms gap at
`refSampleDuration = 23` (4 silent frames get inserted) and a two-sample
video batch. -/
theorem mp4Samples_contiguous_witness :
    List.Chain' (fun a b => a.dts + a.duration = b.dts)
      (remuxAudioSamples ⟨0, 0, 23, false, true, false, none⟩ [⟨0, 4⟩, ⟨100, 4⟩] []) ∧
    List.Chain' (fun a b => a.dts + a.duration = b.dts)
      (remuxVideoSamples 0 0 40 none [⟨0, 0, 7, true⟩, ⟨40, 0, 9, false⟩] []) :=
  mp4Samples_contiguous ⟨0, 0, 23, false, true, false, none⟩ [⟨0, 4⟩, ⟨100, 4⟩]
    0 0 40 none [⟨0, 0, 7, true⟩, ⟨40, 0, 9, false⟩] (by norm_num)

/-- Claim C7: when an AAC sample's computed duration `gap` (here the
distance to the next sample's corrected dts) exceeds `1.5 ·
refSampleDuration`, `fixAudioTimestampGap` is set and the runtime is not
Safari, the remuxer emits that sample (with duration
`round(refSampleDuration)`) immediately followed by exactly
`ceil(|gap − refSampleDuration| / refSampleDuration)` silent frames, at
least one, and the last inserted frame's dts plus duration equals the next
real sample's corrected dts. -/
theorem silent_frame_insertion (cfg : AudioRemuxCfg) (s1 s2 : RawAudioSample)
    (rest : List RawAudioSample) (href : 0 < cfg.refSampleDuration)
    (hmp3 : cfg.isMp3 = false) (hfill : cfg.fillAudioTimestampGap = true)
    (hsaf : cfg.safari = false)
    (hgap : ((s2.dts - cfg.dtsBase - cfg.dtsCorrection -
        (s1.dts - cfg.dtsBase - cfg.dtsCorrection) : Int) : ℚ) >
      cfg.refSampleDuration * 1.5) :
    ∃ tail : List Mp4AudioSample,
      remuxAudioSamples cfg (s1 :: s2 :: rest) [] =
        ({ dts := s1.dts - cfg.dtsBase - cfg.dtsCorrection,
           pts := s1.dts - cfg.dtsBase - cfg.dtsCorrection, cts := 0, size := s1.size,
           duration := jsRound cfg.refSampleDuration,
           originalDts := s1.dts - cfg.dtsBase } ::
          silentFramesFor (s1.dts - cfg.dtsBase - cfg.dtsCorrection)
            (s2.dts - cfg.dtsBase - cfg.dtsCorrection -
              (s1.dts - cfg.dtsBase - cfg.dtsCorrection))
            cfg.refSampleDuration s1.size (s1.dts - cfg.dtsBase)) ++ tail ∧
      (silentFramesFor (s1.dts - cfg.dtsBase - cfg.dtsCorrection)
          (s2.dts - cfg.dtsBase - cfg.dtsCorrection -
            (s1.dts - cfg.dtsBase - cfg.dtsCorrection))
          cfg.refSampleDuration s1.size (s1.dts - cfg.dtsBase)).length =
        (⌈|((s2.dts - cfg.dtsBase - cfg.dtsCorrection -
            (s1.dts - cfg.dtsBase - cfg.dtsCorrection) : Int) : ℚ) -
          cfg.refSampleDuration| / cfg.refSampleDuration⌉).toNat ∧
      1 ≤ (silentFramesFor (s1.dts - cfg.dtsBase - cfg.dtsCorrection)
          (s2.dts - cfg.dtsBase - cfg.dtsCorrection -
            (s1.dts - cfg.dtsBase - cfg.dtsCorrection))
          cfg.refSampleDuration s1.size (s1.dts - cfg.dtsBase)).length ∧
      ∀ a ∈ (silentFramesFor (s1.dts - cfg.dtsBase - cfg.dtsCorrection)
          (s2.dts - cfg.dtsBase - cfg.dtsCorrection -
            (s1.dts - cfg.dtsBase - cfg.dtsCorrection))
          cfg.refSampleDuration s1.size (s1.dts - cfg.dtsBase)).getLast?,
        a.dts + a.duration = s2.dts - cfg.dtsBase - cfg.dtsCorrection := by
  have hraw : audioRawDuration cfg (s1.dts - cfg.dtsBase - cfg.dtsCorrection)
      (s2 :: rest) [] =
      s2.dts - cfg.dtsBase - cfg.dtsCorrection -
        (s1.dts - cfg.dtsBase - cfg.dtsCorrection) := by
    simp [audioRawDuration]
  have hcond : audioGapCond cfg (audioRawDuration cfg
      (s1.dts - cfg.dtsBase - cfg.dtsCorrection) (s2 :: rest) []) = true := by
    rw [hraw]
    simp only [audioGapCond, hmp3, hfill, hsaf, Bool.not_false, Bool.and_true,
      Bool.not_true, decide_eq_true_eq]
    exact hgap
  have hblock : audioBlock cfg s1 (s2 :: rest) [] =
      { dts := s1.dts - cfg.dtsBase - cfg.dtsCorrection,
        pts := s1.dts - cfg.dtsBase - cfg.dtsCorrection, cts := 0, size := s1.size,
        duration := jsRound cfg.refSampleDuration,
        originalDts := s1.dts - cfg.dtsBase } ::
        silentFramesFor (s1.dts - cfg.dtsBase - cfg.dtsCorrection)
          (s2.dts - cfg.dtsBase - cfg.dtsCorrection -
            (s1.dts - cfg.dtsBase - cfg.dtsCorrection))
          cfg.refSampleDuration s1.size (s1.dts - cfg.dtsBase) := by
    simp only [audioBlock]
    rw [if_pos hcond, hraw]
  have hn : 1 ≤ (⌈|((s2.dts - cfg.dtsBase - cfg.dtsCorrection -
      (s1.dts - cfg.dtsBase - cfg.dtsCorrection) : Int) : ℚ) -
      cfg.refSampleDuration| / cfg.refSampleDuration⌉).toNat :=
    silentFrames_count_pos _ _ href hgap
  obtain ⟨tail, htail⟩ := remuxAudioSamples_extends cfg (s2 :: rest)
    ([] ++ audioBlock cfg s1 (s2 :: rest) [])
  refine ⟨tail, ?_, silentFrames_count _ _ _ _ _, ?_, ?_⟩
  · rw [remuxAudioSamples, htail, hblock]
    simp [List.append_assoc]
  · rw [silentFrames_count]
    exact hn
  · intro a ha
    have := silentFrames_last _ _ _ _ _ hn a ha
    omega

/-- Witness for `silent_frame_insertion`: the spec's own example —
`refSampleDuration = 23` and a 100 ms computed duration give
`⌈(100 − 23)/23⌉ = 4` silent frames. -/
theorem silent_frame_insertion_witness :
    (silentFramesFor 0 100 23 4 0).length = 4 ∧
    ∀ a ∈ (silentFramesFor 0 100 23 4 0).getLast?, a.dts + a.duration = 100 := by
  have h := silent_frame_insertion ⟨0, 0, 23, false, true, false, none⟩ ⟨0, 4⟩ ⟨100, 4⟩ []
    (by norm_num) rfl rfl rfl (by norm_num)
  obtain ⟨tail, -, hcount, -, hlast⟩ := h
  constructor
  · have h4 : (⌈|((100 : Int) : ℚ) - 23| / 23⌉).toNat = 4 := by
      have hc : (⌈|((100 : Int) : ℚ) - 23| / 23⌉) = 4 := by
        rw [show |((100 : Int) : ℚ) - 23| = 77 from by norm_num, Int.ceil_eq_iff]
        norm_num
      rw [hc]
      rfl
    have hcount2 : (silentFramesFor 0 100 23 4 0).length =
        (⌈|((100 : Int) : ℚ) - 23| / 23⌉).toNat := hcount
    rw [hcount2, h4]
  · exact fun a ha => hlast a ha

/-! ### `IDRSampleList.getLastSyncPointBeforeDts` theorems -/

theorem sorted_getD_lt (list : List Int) (hs : List.Chain' (· < ·) list)
    {i j : Nat} (hij : i < j) (hj : j < list.length) :
    list.getD i 0 < list.getD j 0 := by
  have hp : List.Pairwise (· < ·) list := List.chain'_iff_pairwise.mp hs
  rw [List.pairwise_iff_getElem] at hp
  have hi : i < list.length := lt_trans hij hj
  have h := hp i j hi hj hij
  rw [List.getD_eq_getElem?_getD, List.getD_eq_getElem?_getD,
    List.getElem?_eq_getElem hi, List.getElem?_eq_getElem hj]
  simpa using h

theorem sorted_getD_le (list : List Int) (hs : List.Chain' (· < ·) list)
    {i j : Nat} (hij : i ≤ j) (hj : j < list.length) :
    list.getD i 0 ≤ list.getD j 0 := by
  rcases Nat.lt_or_ge i j with h | h
  · exact le_of_lt (sorted_getD_lt list hs h hj)
  · have : i = j := by omega
    rw [this]

/-- Invariant-based correctness of the `idrLoop` binary search: if `a` is
the greatest in-range index whose element is `≤ dts`, and the search window
`[lbound, ubound]` contains `a`, the loop returns `a`. -/
theorem idrLoop_spec (list : List Int) (dts : Int) (hs : List.Chain' (· < ·) list)
    (a : Nat) (ha1 : a < list.length) (ha2 : list.getD a 0 ≤ dts)
    (ha3 : ∀ j : Nat, a < j → j < list.length → dts < list.getD j 0) :
    ∀ (fuel : Nat) (lbound ubound : Int), (ubound + 1 - lbound).toNat ≤ fuel →
      0 ≤ lbound → lbound ≤ (a : Int) → (a : Int) ≤ ubound →
      ubound ≤ (list.length : Int) - 1 →
      idrLoop list dts ((list.length : Int) - 1) lbound ubound = (a : Int) := by
  intro fuel
  induction fuel with
  | zero =>
    intro lbound ubound hf h0 hla hau hub
    omega
  | succ fuel ih =>
    intro lbound ubound hf h0 hla hau hub
    have hle : lbound ≤ ubound := le_trans hla hau
    rw [idrLoop, dif_pos hle]
    have hmid1 : lbound ≤ lbound + (ubound - lbound) / 2 := by omega
    have hmid2 : lbound + (ubound - lbound) / 2 ≤ ubound := by omega
    by_cases hbreak : lbound + (ubound - lbound) / 2 = (list.length : Int) - 1 ∨
        (dts ≥ list.getD (lbound + (ubound - lbound) / 2).toNat 0 ∧
          dts < list.getD (lbound + (ubound - lbound) / 2 + 1).toNat 0)
    · rw [if_pos hbreak]
      rcases hbreak with hml | ⟨hge, hlt⟩
      · omega
      · have h1 : ¬ ((a : Int) < lbound + (ubound - lbound) / 2) := by
          intro hlt2
          have := ha3 (lbound + (ubound - lbound) / 2).toNat (by omega) (by omega)
          omega
        have h2 : ¬ (lbound + (ubound - lbound) / 2 < (a : Int)) := by
          intro hlt2
          have hle2 : list.getD (lbound + (ubound - lbound) / 2 + 1).toNat 0 ≤
              list.getD a 0 := sorted_getD_le list hs (by omega) ha1
          omega
        omega
    · rw [if_neg hbreak]
      push_neg at hbreak
      obtain ⟨hnl, hror⟩ := hbreak
      by_cases hcmp : list.getD (lbound + (ubound - lbound) / 2).toNat 0 < dts
      · rw [if_pos hcmp]
        have h2 : list.getD (lbound + (ubound - lbound) / 2 + 1).toNat 0 ≤ dts :=
          hror (le_of_lt hcmp)
        have hmp1 : (lbound + (ubound - lbound) / 2 + 1).toNat < list.length := by omega
        have ha4 : ¬ ((a : Int) < lbound + (ubound - lbound) / 2 + 1) := by
          intro hx
          have := ha3 (lbound + (ubound - lbound) / 2 + 1).toNat (by omega) hmp1
          omega
        exact ih (lbound + (ubound - lbound) / 2 + 1) ubound (by omega) (by omega)
          (by omega) hau hub
      · rw [if_neg hcmp]
        have hx : (a : Int) < lbound + (ubound - lbound) / 2 := by
          by_contra hge2
          push_neg at hge2
          rcases lt_or_eq_of_le hge2 with hlt2 | heq
          · have : list.getD (lbound + (ubound - lbound) / 2).toNat 0 <
                list.getD a 0 := sorted_getD_lt list hs (by omega) ha1
            omega
          · have hda : list.getD (lbound + (ubound - lbound) / 2).toNat 0 =
                list.getD a 0 := by
              rw [show (lbound + (ubound - lbound) / 2).toNat = a from by omega]
            have h2 := hror (by omega)
            have hmp1 : (lbound + (ubound - lbound) / 2 + 1).toNat < list.length := by
              omega
            have : list.getD (lbound + (ubound - lbound) / 2).toNat 0 <
                list.getD (lbound + (ubound - lbound) / 2 + 1).toNat 0 :=
              sorted_getD_lt list hs (by omega) hmp1
            omega
        exact ih lbound (lbound + (ubound - lbound) / 2 - 1) (by omega) h0 hla
          (by omega) (by omega)

/-- Closed form of `getLastSyncPointBeforeDts` on a strictly sorted list:
the first element when the query precedes it, else the element at the
greatest index whose dts is `≤` the query. -/
theorem getLastSyncPointBeforeDts_eq (list : List Int) (dts : Int)
    (hs : List.Chain' (· < ·) list) (hne : list ≠ []) :
    getLastSyncPointBeforeDts list dts =
      some (if dts < list.getD 0 0 then list.getD 0 0
            else list.getD (Nat.findGreatest (dtsLE list dts)
              (list.length - 1)) 0) := by
  have hlen : ¬ list.length = 0 := by simpa using hne
  simp only [getLastSyncPointBeforeDts]
  rw [if_neg hlen]
  by_cases hlt : dts < list.getD 0 0
  · rw [if_pos hlt, if_pos hlt]
    rfl
  · rw [if_neg hlt, if_neg hlt]
    have hlt2 : list.getD 0 0 ≤ dts := not_lt.mp hlt
    have hPa : list.getD (Nat.findGreatest (dtsLE list dts)
        (list.length - 1)) 0 ≤ dts :=
      Nat.findGreatest_spec (Nat.zero_le _) (show dtsLE list dts 0 from hlt2)
    have hale : Nat.findGreatest (dtsLE list dts) (list.length - 1) ≤
        list.length - 1 := Nat.findGreatest_le _
    have ha3 : ∀ j : Nat, Nat.findGreatest (dtsLE list dts)
        (list.length - 1) < j → j < list.length → dts < list.getD j 0 := by
      intro j hj hjl
      have hng := Nat.findGreatest_is_greatest hj (show j ≤ list.length - 1 from by omega)
      simp only [dtsLE, not_le] at hng
      exact hng
    have hloop := idrLoop_spec list dts hs
      (Nat.findGreatest (dtsLE list dts) (list.length - 1))
      (by omega) hPa ha3 list.length 0 ((list.length : Int) - 1)
      (by omega) (by omega) (by omega) (by omega) (by omega)
    rw [hloop, Int.toNat_natCast]

/-- Claim C9 counterexample: on the list with dts values `[10, 20]` and
query `dts = 20`, the lookup returns the element with dts 20, which is not
strictly less than the query (the element with the largest dts strictly
below 20 would be 10). -/
theorem idr_lookup_counterexample :
    getLastSyncPointBeforeDts [10, 20] 20 = some 20 ∧ ¬ ((20 : Int) < 20) := by
  constructor
  · have hs : List.Chain' (· < ·) ([10, 20] : List Int) := by
      rw [List.chain'_cons]
      exact ⟨by norm_num, List.chain'_singleton _⟩
    rw [getLastSyncPointBeforeDts_eq [10, 20] 20 hs (by simp)]
    decide
  · decide

/-- Claim C9 (amended): for a non-empty `IDRSampleList` strictly sorted by
dts, `getLastSyncPointBeforeDts(dts)` always returns an element of the
list; that element is the one with the largest dts less than OR EQUAL TO
the query (not strictly less), and when the query precedes the whole list
the FIRST element is returned; the returned element is monotonically
non-decreasing as a function of the query. -/
theorem idr_lookup_behavior (list : List Int) (d1 d2 : Int)
    (hs : List.Chain' (· < ·) list) (hne : list ≠ []) (h12 : d1 ≤ d2) :
    ∃ r1 r2, getLastSyncPointBeforeDts list d1 = some r1 ∧
      getLastSyncPointBeforeDts list d2 = some r2 ∧
      r1 ≤ r2 ∧ r1 ∈ list ∧
      (d1 < list.getD 0 0 → r1 = list.getD 0 0) ∧
      (list.getD 0 0 ≤ d1 → r1 ≤ d1 ∧ ∀ x ∈ list, x ≤ d1 → x ≤ r1) := by
  have hlen : list.length ≠ 0 := by simpa using hne
  have hmem : ∀ k : Nat, k < list.length → list.getD k 0 ∈ list := by
    intro k hk
    rw [List.getD_eq_getElem?_getD, List.getElem?_eq_getElem hk]
    exact List.getElem_mem hk
  refine ⟨_, _, getLastSyncPointBeforeDts_eq list d1 hs hne,
    getLastSyncPointBeforeDts_eq list d2 hs hne, ?_, ?_, ?_, ?_⟩
  · -- monotone
    by_cases h1 : d1 < list.getD 0 0
    · rw [if_pos h1]
      by_cases h2 : d2 < list.getD 0 0
      · rw [if_pos h2]
      · rw [if_neg h2]
        refine sorted_getD_le list hs (Nat.zero_le _) ?_
        have h := (Nat.findGreatest_le (list.length - 1) :
          Nat.findGreatest (dtsLE list d2) (list.length - 1) ≤ list.length - 1)
        omega
    · rw [if_neg h1, if_neg (by omega : ¬ d2 < list.getD 0 0)]
      have hmono : Nat.findGreatest (dtsLE list d1) (list.length - 1) ≤
          Nat.findGreatest (dtsLE list d2) (list.length - 1) :=
        Nat.findGreatest_mono (fun n hn => le_trans hn h12) le_rfl
      refine sorted_getD_le list hs hmono ?_
      have h := (Nat.findGreatest_le (list.length - 1) :
        Nat.findGreatest (dtsLE list d2) (list.length - 1) ≤ list.length - 1)
      omega
  · -- membership
    by_cases h1 : d1 < list.getD 0 0
    · rw [if_pos h1]; exact hmem 0 (by omega)
    · rw [if_neg h1]
      refine hmem _ ?_
      have h := (Nat.findGreatest_le (list.length - 1) :
        Nat.findGreatest (dtsLE list d1) (list.length - 1) ≤ list.length - 1)
      omega
  · intro h1
    rw [if_pos h1]
  · intro h1
    rw [if_neg (not_lt.mpr h1)]
    constructor
    · exact Nat.findGreatest_spec (Nat.zero_le _) (show dtsLE list d1 0 from h1)
    · intro x hx hxd
      obtain ⟨j, hj, hjx⟩ := List.mem_iff_getElem.mp hx
      have hjD : list.getD j 0 = x := by
        rw [List.getD_eq_getElem?_getD, List.getElem?_eq_getElem hj]
        simpa using hjx
      by_cases hja : j ≤ Nat.findGreatest (dtsLE list d1)
          (list.length - 1)
      · have hfle := (Nat.findGreatest_le (list.length - 1) :
          Nat.findGreatest (dtsLE list d1) (list.length - 1) ≤ list.length - 1)
        have := sorted_getD_le list hs hja (by omega)
        omega
      · exfalso
        have hng := Nat.findGreatest_is_greatest (show Nat.findGreatest (dtsLE list d1)
            (list.length - 1) < j from by omega) (show j ≤ list.length - 1 from by omega)
        simp only [dtsLE, not_le] at hng
        omega

/-- Witness for `idr_lookup_behavior` on the list `[10, 20]` with queries
15 and 25. -/
theorem idr_lookup_behavior_witness :
    getLastSyncPointBeforeDts [10, 20] 15 = some 10 ∧
    getLastSyncPointBeforeDts [10, 20] 25 = some 20 := by
  have hs : List.Chain' (· < ·) ([10, 20] : List Int) := by
    rw [List.chain'_cons]
    exact ⟨by norm_num, List.chain'_singleton _⟩
  obtain ⟨r1, r2, h1, h2, -, -, -, hle⟩ :=
    idr_lookup_behavior [10, 20] 15 25 hs (by simp) (by norm_num)
  constructor
  · rw [h1]
    have hr1 : r1 = 10 := by
      obtain ⟨hr1a, hr1b⟩ := hle (by norm_num)
      have h10 : (10 : Int) ≤ r1 := hr1b 10 (by simp) (by norm_num)
      have e := getLastSyncPointBeforeDts_eq [10, 20] 15 hs (by simp)
      rw [h1] at e
      have : r1 = (if (15 : Int) < 10 then (10 : Int) else
          ([10, 20] : List Int).getD (Nat.findGreatest (dtsLE [10, 20] 15) 1) 0) := by
        exact Option.some_injective _ e
      rw [this]
      decide
    rw [hr1]
  · rw [h2]
    have e := getLastSyncPointBeforeDts_eq [10, 20] 25 hs (by simp)
    rw [h2] at e
    have : r2 = (if (25 : Int) < 10 then (10 : Int) else
        ([10, 20] : List Int).getD (Nat.findGreatest (dtsLE [10, 20] 25) 1) 0) :=
      Option.some_injective _ e
    rw [this]
    decide

/-! ### MediaInfo emission theorems -/

/-- Claim C5 counterexample: in an audio-only session, after a script tag and
an `AudioSpecificConfig` complete the `MediaInfo`, a second
`AudioSpecificConfig` tag re-runs the unguarded `isComplete` check and emits
`MediaInfo` a second time. -/
theorem mediaInfo_emitted_twice_counterexample :
    runEmitCount (startSession true false)
      [DemuxEv.scriptTag ⟨none, none, true, false, false, none, false⟩,
       DemuxEv.aacConfigTag, DemuxEv.aacConfigTag] = 2 ∧ ¬ (2 ≤ 1) := by
  constructor
  · rfl
  · decide

theorem stepEv_shape (s : DemuxSession) (e : DemuxEv) :
    (stepEv s e = (s, 0)) ∨ (∃ s', stepEv s e = emitIfComplete s') := by
  cases e with
  | scriptTag md => exact Or.inr ⟨_, rfl⟩
  | aacConfigTag =>
    rw [stepEv, stepAacConfig]
    split
    · exact Or.inl rfl
    · exact Or.inr ⟨_, rfl⟩
  | avcConfigTag =>
    rw [stepEv, stepAvcConfig]
    split
    · exact Or.inl rfl
    · exact Or.inr ⟨_, rfl⟩

theorem stepEv_emit_le_one (s : DemuxSession) (e : DemuxEv) :
    (stepEv s e).2 ≤ 1 ∧ (1 ≤ (stepEv s e).2 → ((stepEv s e).1).isComplete = true) := by
  rcases stepEv_shape s e with h | ⟨s', h⟩
  · rw [h]; exact ⟨by omega, by intro hc; omega⟩
  · rw [h, emitIfComplete]
    by_cases hc : s'.isComplete <;> simp [hc]

/-- Claim C5 (amended): every `MediaInfo` emission happens at a
metadata-bearing tag whose handler finds `isComplete()`, and each such tag
emits at most once; the per-session total is therefore bounded by the number
of metadata-bearing tags parsed, not by one — duplicate or late
configuration tags re-emit `MediaInfo`. -/
theorem mediaInfo_emission_behavior (s : DemuxSession) (evs : List DemuxEv) :
    runEmitCount s evs ≤ evs.length ∧
    ∀ e : DemuxEv, (stepEv s e).2 ≤ 1 ∧
      (1 ≤ (stepEv s e).2 → ((stepEv s e).1).isComplete = true) := by
  constructor
  · induction evs generalizing s with
    | nil => simp [runEmitCount]
    | cons e rest ih =>
      have h1 := (stepEv_emit_le_one s e).1
      have h2 := ih (stepEv s e).1
      rw [runEmitCount]
      simp only [List.length_cons]
      omega
  · exact stepEv_emit_le_one s

/-- Witness for `mediaInfo_emission_behavior` on the empty trace. -/
theorem mediaInfo_emission_behavior_witness :
    runEmitCount (startSession true true) [] ≤ 0 :=
  (mediaInfo_emission_behavior (startSession true true) []).1

end FlvJs
